import Mathlib

/-!
Shallow embedding of the PathPlanning core (src/src/lib.rs, module
`path_finding`): the neighbor enumerator, the grid graph builder over a
petgraph-style undirected graph map, the line rasterizer (`Path` iterator)
and the collision checker, together with theorems settling the spec claims.

Machine integers (`i32`) are modelled as `Int`; on the inputs the claims
quantify over, every intermediate value stays far from the `i32` range
boundary, so wrap-around never distinguishes the model from the code.
-/

namespace PathFinding

/-- `type Point = (i32, i32)` — an ordered pair of signed integers.
Structural equality, freely copied. -/
structure Point where
  x : Int
  y : Int
deriving DecidableEq, Repr

/-- The panic conditions of the Rust code, surfaced as values: `neighbors`
panics when its point is out of bounds, `build_empty_tile_graph` panics on a
non-positive grid size. -/
inductive PfError where
  | outOfBounds
  | invalidGridSize
deriving DecidableEq, Repr

/-- The Rust range `(-1..2)` as the list of its elements. -/
def offsetRange : List Int := [-1, 0, 1]

/-- `fn neighbors(p: Point, x_len: i32, y_len: i32) -> Vec<Point>`.
Panics (here: `Except.error .outOfBounds`) when `p` is out of bounds;
otherwise maps the offsets `(dx, dy) ∈ (-1..2)²` minus `(0,0)` over `p`,
dx outer and dy inner, then keeps the results with non-negative
coordinates, then those below the bounds — exactly the two `filter`
stages of the source. -/
def neighbors (p : Point) (x_len y_len : Int) : Except PfError (List Point) :=
  if p.x < 0 ∨ p.y < 0 ∨ x_len ≤ p.x ∨ y_len ≤ p.y then
    Except.error PfError.outOfBounds
  else
    Except.ok <|
      (((offsetRange.map (fun dx =>
          (offsetRange.filter (fun dy => !(dx == 0 && dy == 0))).map
            (fun dy => Point.mk (p.x + dx) (p.y + dy)))).flatten).filter
        (fun q => decide (0 ≤ q.x) && decide (0 ≤ q.y))).filter
        (fun q => decide (q.x < x_len) && decide (q.y < y_len))

/-- In-bounds predicate of the grid `[0, x_len) × [0, y_len)`. -/
def inBounds (p : Point) (x_len y_len : Int) : Prop :=
  0 ≤ p.x ∧ p.x < x_len ∧ 0 ≤ p.y ∧ p.y < y_len

instance (p : Point) (x_len y_len : Int) : Decidable (inBounds p x_len y_len) := by
  unfold inBounds; infer_instance

/-- `petgraph::graphmap::UnGraphMap<Point, i32>`, restricted to the
operations the source uses: nodes in insertion order without duplicates,
and each undirected edge stored once as `(a, b, weight)`, identified with
`(b, a, weight)`. -/
structure UnGraphMap where
  nodes : List Point
  edges : List (Point × Point × Int)
deriving DecidableEq, Repr

/-- `UnGraphMap::new()`. -/
def UnGraphMap.new : UnGraphMap := ⟨[], []⟩

/-- `g.contains_node(p)`. -/
def UnGraphMap.containsNode (g : UnGraphMap) (p : Point) : Bool :=
  g.nodes.contains p

/-- Whether a stored edge entry connects `a` and `b`, in either
orientation — `UnGraphMap` is undirected. -/
def edgeMatches (a b : Point) (e : Point × Point × Int) : Bool :=
  (e.1 == a && e.2.1 == b) || (e.1 == b && e.2.1 == a)

/-- `g.contains_edge(a, b)` (orientation-insensitive). -/
def UnGraphMap.containsEdge (g : UnGraphMap) (a b : Point) : Bool :=
  g.edges.any (edgeMatches a b)

/-- `g.add_node(p)`: inserts `p` if absent. -/
def UnGraphMap.addNode (g : UnGraphMap) (p : Point) : UnGraphMap :=
  if g.containsNode p then g else ⟨g.nodes ++ [p], g.edges⟩

/-- `g.add_edge(a, b, w)`: inserts missing endpoints as nodes, then
updates the weight when the edge already exists (in either orientation)
and otherwise appends the new edge — petgraph's documented behavior. -/
def UnGraphMap.addEdge (g : UnGraphMap) (a b : Point) (w : Int) : UnGraphMap :=
  let g1 := (g.addNode a).addNode b
  if g1.containsEdge a b then
    ⟨g1.nodes, g1.edges.map (fun e => if edgeMatches a b e then (e.1, e.2.1, w) else e)⟩
  else
    ⟨g1.nodes, g1.edges ++ [(a, b, w)]⟩

/-- `g.node_count()`. -/
def UnGraphMap.nodeCount (g : UnGraphMap) : Nat := g.nodes.length

/-- `g.edge_count()`. -/
def UnGraphMap.edgeCount (g : UnGraphMap) : Nat := g.edges.length

/-- The number of edges incident to `p` — the size of `p`'s adjacency in
the undirected graph map. -/
def UnGraphMap.degree (g : UnGraphMap) (p : Point) : Nat :=
  (g.edges.filter (fun e => e.1 == p || e.2.1 == p)).length

/-- The point list `(0..x_size).map(|x| (0..y_size).map(move |y| (x, y))).flatten()`:
x outer, y inner. -/
def gridPoints (x_size y_size : Int) : List Point :=
  ((List.range x_size.toNat).map (fun (x : Nat) =>
    (List.range y_size.toNat).map (fun (y : Nat) => Point.mk (x : Int) (y : Int)))).flatten

/-- One iteration of the builder's `for p in points` loop body:
`g.add_node(p); for n in neighbors(p, x_size, y_size) { g.add_edge(p, n, 1); }`.
A panic inside `neighbors` propagates. -/
def buildStep (x_size y_size : Int) (g : UnGraphMap) (p : Point) :
    Except PfError UnGraphMap := do
  let ns ← neighbors p x_size y_size
  pure (ns.foldl (fun g n => g.addEdge p n 1) (g.addNode p))

/-- `pub fn build_empty_tile_graph(x_size: i32, y_size: i32) -> UnGraphMap<Point, i32>`.
Panics (here: `Except.error .invalidGridSize`) when a size is below 1;
otherwise folds the loop body over all grid points. -/
def build_empty_tile_graph (x_size y_size : Int) : Except PfError UnGraphMap :=
  if x_size < 1 ∨ y_size < 1 then
    Except.error PfError.invalidGridSize
  else
    (gridPoints x_size y_size).foldlM (buildStep x_size y_size) UnGraphMap.new

/-- `struct Line { first: Point, second: Point }`. -/
structure Line where
  first : Point
  second : Point
deriving DecidableEq, Repr

/-- `struct Path { line: Line, curr_x: i32 }` — the iterator's state. -/
structure Path where
  line : Line
  curr_x : Int
deriving DecidableEq, Repr

/-- Abstraction of the `curr_x < second.x` branch's y-computation
`self.line.first.1 + ((dx as f64 * sin(atan((Δy as f64)/(Δx as f64)))) as i32)`:
IEEE-754 `f64` arithmetic has no shallow embedding here, so the theorems
below quantify over every function `yAt` in its place — none of them
depends on the value this branch yields, only on which branch runs and on
how `curr_x` advances. -/
def YComp := Line → Int → Int

/-- `impl Iterator for Path { fn next(&mut self) -> Option<Point> }`,
as a step function from the state to the yielded point and the next state:
* `curr_x < second.x`: yield `(curr_x, y)` with `y` from the `yAt`
  abstraction, and advance `curr_x` by one;
* `curr_x == second.x`: yield `line.second` — the source mutates nothing
  in this branch, so the state is returned unchanged;
* otherwise: the sequence is over. -/
def pathNext (yAt : YComp) (s : Path) : Option (Point × Path) :=
  if s.curr_x < s.line.second.x then
    some (⟨s.curr_x, yAt s.line s.curr_x⟩, ⟨s.line, s.curr_x + 1⟩)
  else if s.curr_x = s.line.second.x then
    some (s.line.second, s)
  else
    none

/-- The `n`-th point the iterator yields from state `s` (counting from 0),
or `none` when the sequence has ended by then. -/
def pathSeq (yAt : YComp) (s : Path) : Nat → Option Point
  | 0 => (pathNext yAt s).map Prod.fst
  | n + 1 =>
    match pathNext yAt s with
    | none => none
    | some (_, s') => pathSeq yAt s' n

/-- The `for step in path { if !g.contains_node(step) { return true; } }`
loop of `collision_between`, with an explicit fuel bound: `some b` when the
loop returns `b` within `fuel` iterations, `none` when it is still running
after `fuel` iterations. -/
def collisionLoop (yAt : YComp) (g : UnGraphMap) : Nat → Path → Option Bool
  | 0, _ => none
  | fuel + 1, s =>
    match pathNext yAt s with
    | none => some false
    | some (step, s') =>
      if g.containsNode step then collisionLoop yAt g fuel s'
      else some true

/-- `fn collision_between(p1: Point, p2: Point, g: UnGraphMap<Point, i32>) -> bool`:
iterates `Path { line: Line { first: p1, second: p2 }, curr_x: p1.0 }`,
returning `true` at the first step absent from `g`'s nodes and `false`
when the iterator is exhausted. `some b` when that happens within `fuel`
iterations; `none` when the loop has not returned by then. -/
def collision_between (yAt : YComp) (p1 p2 : Point) (g : UnGraphMap)
    (fuel : Nat) : Option Bool :=
  collisionLoop yAt g fuel ⟨⟨p1, p2⟩, p1.x⟩

/-- The 8 offset points of `p`, in the order the source generates them:
`dx` ascending over `-1, 0, 1` outer, `dy` ascending inner, `(0, 0)`
skipped, before any bounds filtering. -/
def offsetPoints (p : Point) : List Point :=
  [⟨p.x + -1, p.y + -1⟩, ⟨p.x + -1, p.y + 0⟩, ⟨p.x + -1, p.y + 1⟩,
   ⟨p.x + 0, p.y + -1⟩, ⟨p.x + 0, p.y + 1⟩,
   ⟨p.x + 1, p.y + -1⟩, ⟨p.x + 1, p.y + 0⟩, ⟨p.x + 1, p.y + 1⟩]

/-- 8-connected adjacency: distinct points whose coordinates differ by at
most one in each axis. -/
def adjacent (p q : Point) : Prop :=
  (p.x - q.x).natAbs ≤ 1 ∧ (p.y - q.y).natAbs ≤ 1 ∧ p ≠ q

instance (p q : Point) : Decidable (adjacent p q) := by
  unfold adjacent; infer_instance

/-- The neighbor list of an in-bounds point, as a plain list (the value
inside `neighbors`' `Except.ok`). -/
def nbrs (p : Point) (x_len y_len : Int) : List Point :=
  (offsetPoints p).filter (fun q => decide (inBounds q x_len y_len))

/-- The builder's loop body on the success path (no panic): what
`buildStep` returns for an in-bounds point. -/
def buildStepOk (x_size y_size : Int) (g : UnGraphMap) (p : Point) : UnGraphMap :=
  (nbrs p x_size y_size).foldl (fun g n => g.addEdge p n 1) (g.addNode p)

/-- The graph the builder produces on the success path. -/
def builtGraph (x_size y_size : Int) : UnGraphMap :=
  (gridPoints x_size y_size).foldl (buildStepOk x_size y_size) UnGraphMap.new

/-- Two edge entries connect the same unordered pair of endpoints. -/
def edgeEquiv (e1 e2 : Point × Point × Int) : Prop :=
  (e1.1 = e2.1 ∧ e1.2.1 = e2.2.1) ∨ (e1.1 = e2.2.1 ∧ e1.2.1 = e2.1)

/-- Structural invariants of a graph map reached through the API: node
list without duplicates, no self-loop entries, and no two entries for the
same unordered pair (each undirected edge is stored exactly once). -/
def Wf (g : UnGraphMap) : Prop :=
  g.nodes.Nodup ∧ (∀ e ∈ g.edges, e.1 ≠ e.2.1) ∧
    g.edges.Pairwise (fun e1 e2 => ¬ edgeEquiv e1 e2)

/-- A corner cell of the grid: both coordinates on a boundary. -/
def isCorner (p : Point) (x_len y_len : Int) : Prop :=
  (p.x = 0 ∨ p.x = x_len - 1) ∧ (p.y = 0 ∨ p.y = y_len - 1)

instance (p : Point) (x_len y_len : Int) : Decidable (isCorner p x_len y_len) := by
  unfold isCorner; infer_instance

/-- A boundary cell of the grid: some coordinate on a boundary. -/
def isBoundary (p : Point) (x_len y_len : Int) : Prop :=
  p.x = 0 ∨ p.x = x_len - 1 ∨ p.y = 0 ∨ p.y = y_len - 1

instance (p : Point) (x_len y_len : Int) : Decidable (isBoundary p x_len y_len) := by
  unfold isBoundary; infer_instance

/- ### Lemmas about `neighbors` -/

theorem neighbors_ok_eq (p : Point) (x_len y_len : Int) (h : inBounds p x_len y_len) :
    neighbors p x_len y_len =
      Except.ok ((offsetPoints p).filter (fun q => decide (inBounds q x_len y_len))) := by
  unfold neighbors
  rw [if_neg (by unfold inBounds at h; omega)]
  congr 1
  show ((offsetPoints p).filter _).filter _ = _
  rw [List.filter_filter]
  refine List.filter_congr ?_
  intro q _
  rw [Bool.eq_iff_iff]
  simp only [Bool.and_eq_true, decide_eq_true_eq, inBounds]
  omega

theorem neighbors_error_iff_aux (p : Point) (x_len y_len : Int) :
    neighbors p x_len y_len = Except.error PfError.outOfBounds ↔
      ¬ inBounds p x_len y_len := by
  unfold neighbors inBounds
  split
  · rename_i hc
    have hni : ¬(0 ≤ p.x ∧ p.x < x_len ∧ 0 ≤ p.y ∧ p.y < y_len) := by omega
    simp [hni]
  · rename_i hc
    have hin : 0 ≤ p.x ∧ p.x < x_len ∧ 0 ≤ p.y ∧ p.y < y_len := by omega
    simp [hin]

theorem mem_offsets_iff (x_len y_len px py qx qy : Int) :
    (qx = px + -1 ∧ qy = py + -1 ∨
        qx = px + -1 ∧ qy = py + 0 ∨
          qx = px + -1 ∧ qy = py + 1 ∨
            qx = px + 0 ∧ qy = py + -1 ∨
              qx = px + 0 ∧ qy = py + 1 ∨
                qx = px + 1 ∧ qy = py + -1 ∨ qx = px + 1 ∧ qy = py + 0 ∨ qx = px + 1 ∧ qy = py + 1) ∧
      0 ≤ qx ∧ qx < x_len ∧ 0 ≤ qy ∧ qy < y_len ↔
    (0 ≤ qx ∧ qx < x_len ∧ 0 ≤ qy ∧ qy < y_len) ∧
      (px - qx).natAbs ≤ 1 ∧ (py - qy).natAbs ≤ 1 ∧ ¬(px = qx ∧ py = qy) := by
  omega

theorem mem_neighbors_ok (p q : Point) (x_len y_len : Int)
    (h : inBounds p x_len y_len) (ns : List Point)
    (hns : neighbors p x_len y_len = Except.ok ns) :
    q ∈ ns ↔ inBounds q x_len y_len ∧ adjacent p q := by
  rw [neighbors_ok_eq p x_len y_len h] at hns
  injection hns with hns
  subst hns
  obtain ⟨px, py⟩ := p
  obtain ⟨qx, qy⟩ := q
  simp only [List.mem_filter, offsetPoints, List.mem_cons, List.not_mem_nil, or_false,
    decide_eq_true_eq, Point.mk.injEq, inBounds, adjacent, ne_eq]
  exact mem_offsets_iff x_len y_len px py qx qy

theorem neighbors_nodup (p : Point) (x_len y_len : Int)
    (h : inBounds p x_len y_len) (ns : List Point)
    (hns : neighbors p x_len y_len = Except.ok ns) : ns.Nodup := by
  rw [neighbors_ok_eq p x_len y_len h] at hns
  injection hns with hns
  subst hns
  refine List.Nodup.filter _ ?_
  obtain ⟨px, py⟩ := p
  simp only [offsetPoints, List.nodup_cons, List.mem_cons, List.not_mem_nil, or_false,
    List.nodup_nil, and_true, Point.mk.injEq, not_or, true_and, not_false_eq_true]
  omega

/- ### Lemmas about the `Path` iterator -/

/-- Once the cursor sits exactly at `second.x`, the `==` branch of
`Path::next` returns `second` without touching the state, so every later
call yields `second` again: the sequence never ends. -/
theorem pathSeq_stuck (yAt : YComp) (s : Path) (h : s.curr_x = s.line.second.x) :
    ∀ n, pathSeq yAt s n = some s.line.second := by
  have hnext : pathNext yAt s = some (s.line.second, s) := by
    unfold pathNext
    rw [if_neg (by omega), if_pos h]
  intro n
  induction n with
  | zero => simp [pathSeq, hnext]
  | succ n ih => simp [pathSeq, hnext, ih]

/- ### Claim theorems: neighbors -/

/-- C5: `neighbors(p, x_len, y_len)` fails with `OutOfBounds` exactly when
`p` has a negative coordinate or a coordinate at or above its bound, and
returns normally (some list) for every in-bounds `p`. -/
theorem C5_neighbors_out_of_bounds_iff (p : Point) (x_len y_len : Int) :
    (neighbors p x_len y_len = Except.error PfError.outOfBounds ↔
      ¬ inBounds p x_len y_len) ∧
    (inBounds p x_len y_len → ∃ ns, neighbors p x_len y_len = Except.ok ns) :=
  ⟨neighbors_error_iff_aux p x_len y_len,
   fun h => ⟨_, neighbors_ok_eq p x_len y_len h⟩⟩

/-- Witness for C5: `(3,0)` is rejected and `(1,1)` is accepted on a 3×3 grid. -/
theorem C5_neighbors_out_of_bounds_iff_witness :
    neighbors ⟨3, 0⟩ 3 3 = Except.error PfError.outOfBounds ∧
    ∃ ns, neighbors ⟨1, 1⟩ 3 3 = Except.ok ns :=
  ⟨(C5_neighbors_out_of_bounds_iff ⟨3, 0⟩ 3 3).1.mpr (by decide),
   (C5_neighbors_out_of_bounds_iff ⟨1, 1⟩ 3 3).2 (by decide)⟩

/-- C6: for every in-bounds `p`, `neighbors` returns exactly the in-bounds
points among the 8 offsets of `p`, in the order generated by dx ascending
outer and dy ascending inner with `(0,0)` skipped, then bounds-filtered
(`offsetPoints` lists the offsets in that order); including the two
concrete 3×3 vectors. -/
theorem C6_neighbors_order (p : Point) (x_len y_len : Int)
    (h : inBounds p x_len y_len) :
    neighbors p x_len y_len =
      Except.ok ((offsetPoints p).filter (fun q => decide (inBounds q x_len y_len))) ∧
    neighbors ⟨1, 1⟩ 3 3 =
      Except.ok [⟨0, 0⟩, ⟨0, 1⟩, ⟨0, 2⟩, ⟨1, 0⟩, ⟨1, 2⟩, ⟨2, 0⟩, ⟨2, 1⟩, ⟨2, 2⟩] ∧
    neighbors ⟨0, 1⟩ 3 3 =
      Except.ok [⟨0, 0⟩, ⟨0, 2⟩, ⟨1, 0⟩, ⟨1, 1⟩, ⟨1, 2⟩] :=
  ⟨neighbors_ok_eq p x_len y_len h, by rfl, by rfl⟩

/-- Witness for C6 at `p = (1,1)` on the 3×3 grid. -/
theorem C6_neighbors_order_witness :
    neighbors ⟨1, 1⟩ 3 3 =
      Except.ok ((offsetPoints ⟨1, 1⟩).filter (fun q => decide (inBounds q 3 3))) :=
  (C6_neighbors_order ⟨1, 1⟩ 3 3 (by decide)).1

/- ### Claim theorems: the rasterizer and the collision checker -/

/-- C1 (refuting the claim — the code is at fault): starting the iterator at
`curr_x = first.x` on the line from `(0,0)` to `(2,0)`, the sequence still
yields a point at every index `n + 2`: once `curr_x` reaches `second.x` the
`==` branch of `Path::next` leaves `curr_x` unchanged, so `second` is
yielded at every subsequent call instead of exactly once, and the sequence
never ends — for every model `yAt` of the floating-point y-computation. -/
theorem C1_rasterizer_never_ends (yAt : YComp) (n : Nat) :
    pathSeq yAt ⟨⟨⟨0, 0⟩, ⟨2, 0⟩⟩, 0⟩ (n + 2) = some ⟨2, 0⟩ := by
  have h0 : pathNext yAt ⟨⟨⟨0, 0⟩, ⟨2, 0⟩⟩, 0⟩ =
      some (⟨0, yAt ⟨⟨0, 0⟩, ⟨2, 0⟩⟩ 0⟩, ⟨⟨⟨0, 0⟩, ⟨2, 0⟩⟩, 1⟩) := by
    unfold pathNext
    rw [if_pos (by norm_num)]
    rfl
  have h1 : pathNext yAt ⟨⟨⟨0, 0⟩, ⟨2, 0⟩⟩, 1⟩ =
      some (⟨1, yAt ⟨⟨0, 0⟩, ⟨2, 0⟩⟩ 1⟩, ⟨⟨⟨0, 0⟩, ⟨2, 0⟩⟩, 2⟩) := by
    unfold pathNext
    rw [if_pos (by norm_num)]
    rfl
  show pathSeq yAt ⟨⟨⟨0, 0⟩, ⟨2, 0⟩⟩, 0⟩ (n + 1 + 1) = some ⟨2, 0⟩
  simp only [pathSeq, h0, h1]
  exact pathSeq_stuck yAt ⟨⟨⟨0, 0⟩, ⟨2, 0⟩⟩, 2⟩ rfl n

/-- C9 (refuting the claim — the code is at fault): on the vertical line
from `(0,0)` to `(0,5)`, the rasterizer does not walk `y` from `first.y` to
`second.y`: starting at `curr_x = first.x = second.x` it yields `(0,5)` at
every index — so an intermediate point such as `(0,1)` is never produced —
and the sequence never ends. (No division by zero occurs either: the
`curr_x < second.x` branch that computes the angle is never entered.) -/
theorem C9_vertical_line_not_walked (yAt : YComp) (n : Nat) :
    pathSeq yAt ⟨⟨⟨0, 0⟩, ⟨0, 5⟩⟩, 0⟩ n = some ⟨0, 5⟩ ∧
    pathSeq yAt ⟨⟨⟨0, 0⟩, ⟨0, 5⟩⟩, 0⟩ n ≠ some ⟨0, 1⟩ := by
  have h := pathSeq_stuck yAt ⟨⟨⟨0, 0⟩, ⟨0, 5⟩⟩, 0⟩ rfl n
  refine ⟨h, ?_⟩
  rw [h]
  simp

/-- C10: when `p1.x > p2.x` the iterator is exhausted at once (`curr_x`
starts past `second.x`), so `collision_between(p1, p2, g)` returns `false`
for every graph `g`, checking no membership at all. -/
theorem C10_reverse_line_no_collision (yAt : YComp) (g : UnGraphMap)
    (p1 p2 : Point) (h : p2.x < p1.x) (fuel : Nat) (hf : 1 ≤ fuel) :
    pathNext yAt ⟨⟨p1, p2⟩, p1.x⟩ = none ∧
    collision_between yAt p1 p2 g fuel = some false := by
  have hn : pathNext yAt ⟨⟨p1, p2⟩, p1.x⟩ = none := by
    unfold pathNext
    rw [if_neg (by dsimp only; omega), if_neg (by dsimp only; omega)]
  refine ⟨hn, ?_⟩
  obtain ⟨k, rfl⟩ : ∃ k, fuel = k + 1 := ⟨fuel - 1, by omega⟩
  unfold collision_between collisionLoop
  rw [hn]

/-- Witness for C10 at `p1 = (1,0)`, `p2 = (0,0)`, the empty graph and one
unit of fuel. -/
theorem C10_reverse_line_no_collision_witness :
    pathNext (fun _ _ => 0) ⟨⟨⟨1, 0⟩, ⟨0, 0⟩⟩, 1⟩ = none ∧
    collision_between (fun _ _ => 0) ⟨1, 0⟩ ⟨0, 0⟩ UnGraphMap.new 1 = some false :=
  C10_reverse_line_no_collision (fun _ _ => 0) UnGraphMap.new ⟨1, 0⟩ ⟨0, 0⟩
    (by decide) 1 (by decide)

/-- C2 (refuting the claim — the code is at fault): the 1×1 grid graph
contains the node `(0,0)`, and every rasterized step of the line from
`(0,0)` to `(0,0)` is that node, yet `collision_between((0,0), (0,0), g)`
does not return `false`: the loop never returns at all, for every fuel
bound and every model `yAt` of the floating-point y-computation. -/
theorem C2_collision_checker_no_answer (yAt : YComp) (fuel : Nat) :
    build_empty_tile_graph 1 1 = Except.ok ⟨[⟨0, 0⟩], []⟩ ∧
    collision_between yAt ⟨0, 0⟩ ⟨0, 0⟩ ⟨[⟨0, 0⟩], []⟩ fuel = none := by
  refine ⟨by rfl, ?_⟩
  induction fuel with
  | zero => rfl
  | succ n ih =>
    have hnext : pathNext yAt ⟨⟨⟨0, 0⟩, ⟨0, 0⟩⟩, 0⟩ =
        some (⟨0, 0⟩, ⟨⟨⟨0, 0⟩, ⟨0, 0⟩⟩, 0⟩) := by rfl
    unfold collision_between collisionLoop
    rw [hnext]
    exact ih

/- ### Lemmas about `gridPoints` and the builder fold -/

theorem mem_gridPoints (p : Point) (x_size y_size : Int) :
    p ∈ gridPoints x_size y_size ↔ inBounds p x_size y_size := by
  obtain ⟨px, py⟩ := p
  unfold gridPoints
  rw [List.mem_flatten]
  constructor
  · rintro ⟨l, hl, hp⟩
    rw [List.mem_map] at hl
    obtain ⟨i, hi, rfl⟩ := hl
    rw [List.mem_range] at hi
    rw [List.mem_map] at hp
    obtain ⟨j, hj, hpj⟩ := hp
    rw [List.mem_range] at hj
    injection hpj with h1 h2
    unfold inBounds
    dsimp only
    omega
  · intro h
    unfold inBounds at h
    dsimp only at h
    refine ⟨(List.range y_size.toNat).map (fun j : Nat => Point.mk (px.toNat : Int) (j : Int)), ?_, ?_⟩
    · rw [List.mem_map]
      exact ⟨px.toNat, by rw [List.mem_range]; omega, rfl⟩
    · rw [List.mem_map]
      refine ⟨py.toNat, by rw [List.mem_range]; omega, ?_⟩
      rw [Point.mk.injEq]
      constructor <;> omega

theorem gridPoints_nodup (x_size y_size : Int) : (gridPoints x_size y_size).Nodup := by
  unfold gridPoints
  rw [List.nodup_flatten]
  constructor
  · intro l hl
    rw [List.mem_map] at hl
    obtain ⟨i, _, rfl⟩ := hl
    refine List.Nodup.map ?_ (List.nodup_range _)
    intro a b hab
    rw [Point.mk.injEq] at hab
    omega
  · rw [List.pairwise_map]
    refine List.Pairwise.imp ?_ (List.pairwise_lt_range _)
    intro a b hab
    rw [List.disjoint_left]
    intro q hqa hqb
    rw [List.mem_map] at hqa hqb
    obtain ⟨j1, _, hj1⟩ := hqa
    obtain ⟨j2, _, hj2⟩ := hqb
    rw [← hj2, Point.mk.injEq] at hj1
    omega

theorem gridPoints_length (x_size y_size : Int) :
    (gridPoints x_size y_size).length = x_size.toNat * y_size.toNat := by
  unfold gridPoints
  rw [List.length_flatten, List.map_map]
  have h : ((List.range x_size.toNat).map
      (List.length ∘ fun (x : Nat) =>
        (List.range y_size.toNat).map (fun (y : Nat) => Point.mk (x : Int) (y : Int)))) =
      List.replicate x_size.toNat y_size.toNat := by
    rw [List.eq_replicate_iff]
    refine ⟨by simp, ?_⟩
    intro a ha
    rw [List.mem_map] at ha
    obtain ⟨i, _, rfl⟩ := ha
    simp
  rw [h, List.sum_replicate, smul_eq_mul]
theorem buildStep_eq_ok (x_size y_size : Int) (g : UnGraphMap) (p : Point)
    (h : inBounds p x_size y_size) :
    buildStep x_size y_size g p = Except.ok (buildStepOk x_size y_size g p) := by
  unfold buildStep
  rw [neighbors_ok_eq p x_size y_size h]
  rfl

theorem foldlM_buildStep (x_size y_size : Int) (l : List Point)
    (hl : ∀ p ∈ l, inBounds p x_size y_size) (g : UnGraphMap) :
    l.foldlM (buildStep x_size y_size) g =
      Except.ok (l.foldl (buildStepOk x_size y_size) g) := by
  induction l generalizing g with
  | nil => rfl
  | cons p l ih =>
    have hp : inBounds p x_size y_size := hl p (List.mem_cons_self p l)
    rw [List.foldlM_cons, List.foldl_cons, buildStep_eq_ok x_size y_size g p hp]
    exact ih (fun q hq => hl q (List.mem_cons_of_mem p hq)) _

theorem build_eq_ok (x_size y_size : Int) (hx : 1 ≤ x_size) (hy : 1 ≤ y_size) :
    build_empty_tile_graph x_size y_size = Except.ok (builtGraph x_size y_size) := by
  unfold build_empty_tile_graph
  rw [if_neg (by omega)]
  exact foldlM_buildStep x_size y_size _
    (fun p hp => (mem_gridPoints p x_size y_size).mp hp) _

/- ### Claim theorem: grid-size validation -/

/-- C7: `build_empty_tile_graph(x_size, y_size)` fails with
`InvalidGridSize` exactly when `x_size < 1` or `y_size < 1` — in
particular on `(1, 0)` and `(0, 1)` — and on failure it produces no graph
at all; for valid sizes it returns a graph. -/
theorem C7_invalid_grid_size (x_size y_size : Int) :
    (build_empty_tile_graph x_size y_size = Except.error PfError.invalidGridSize ↔
      x_size < 1 ∨ y_size < 1) ∧
    ((x_size < 1 ∨ y_size < 1) →
      ∀ g, build_empty_tile_graph x_size y_size ≠ Except.ok g) ∧
    build_empty_tile_graph 1 0 = Except.error PfError.invalidGridSize ∧
    build_empty_tile_graph 0 1 = Except.error PfError.invalidGridSize := by
  refine ⟨?_, ?_, by rfl, by rfl⟩
  · constructor
    · intro herr
      by_contra hc
      push_neg at hc
      rw [build_eq_ok x_size y_size (by omega) (by omega)] at herr
      cases herr
    · intro hlt
      unfold build_empty_tile_graph
      rw [if_pos hlt]
  · intro hlt g
    unfold build_empty_tile_graph
    rw [if_pos hlt]
    intro habs
    cases habs

/-- Witness for C7 at sizes `(1, 0)` (rejected) and a valid size `(2, 2)`. -/
theorem C7_invalid_grid_size_witness :
    build_empty_tile_graph 1 0 = Except.error PfError.invalidGridSize ∧
    ∀ g, build_empty_tile_graph 1 0 ≠ Except.ok g :=
  ⟨(C7_invalid_grid_size 1 0).1.mpr (by omega),
   (C7_invalid_grid_size 1 0).2.1 (by omega)⟩

/- ### Structural lemmas about `UnGraphMap` operations -/

theorem containsNode_iff (g : UnGraphMap) (q : Point) :
    g.containsNode q = true ↔ q ∈ g.nodes := by
  unfold UnGraphMap.containsNode
  exact List.elem_iff

theorem edgeMatches_iff (a b : Point) (e : Point × Point × Int) :
    edgeMatches a b e = true ↔ (e.1 = a ∧ e.2.1 = b) ∨ (e.1 = b ∧ e.2.1 = a) := by
  unfold edgeMatches
  simp [Bool.or_eq_true, Bool.and_eq_true, beq_iff_eq]

theorem containsEdge_iff (g : UnGraphMap) (a b : Point) :
    g.containsEdge a b = true ↔
      ∃ e ∈ g.edges, (e.1 = a ∧ e.2.1 = b) ∨ (e.1 = b ∧ e.2.1 = a) := by
  unfold UnGraphMap.containsEdge
  rw [List.any_eq_true]
  constructor
  · rintro ⟨e, he, hm⟩
    exact ⟨e, he, (edgeMatches_iff a b e).mp hm⟩
  · rintro ⟨e, he, hm⟩
    exact ⟨e, he, (edgeMatches_iff a b e).mpr hm⟩

theorem any_congr_fun {α : Type} (l : List α) (f h : α → Bool)
    (he : ∀ a, f a = h a) : l.any f = l.any h := by
  induction l with
  | nil => rfl
  | cons a l ih => simp only [List.any_cons, he a, ih]

theorem containsEdge_comm (g : UnGraphMap) (a b : Point) :
    g.containsEdge a b = g.containsEdge b a := by
  unfold UnGraphMap.containsEdge
  refine any_congr_fun _ _ _ ?_
  intro e
  unfold edgeMatches
  exact Bool.or_comm _ _

theorem addNode_edges (g : UnGraphMap) (p : Point) : (g.addNode p).edges = g.edges := by
  unfold UnGraphMap.addNode
  split <;> rfl

theorem addNode_mem (g : UnGraphMap) (p q : Point) :
    q ∈ (g.addNode p).nodes ↔ q ∈ g.nodes ∨ q = p := by
  unfold UnGraphMap.addNode
  split
  · rename_i h
    rw [containsNode_iff] at h
    constructor
    · exact Or.inl
    · rintro (h1 | rfl)
      · exact h1
      · exact h
  · simp

theorem addNode_nodup (g : UnGraphMap) (p : Point) (h : g.nodes.Nodup) :
    (g.addNode p).nodes.Nodup := by
  unfold UnGraphMap.addNode
  split
  · exact h
  · rename_i hc
    rw [containsNode_iff] at hc
    simp [List.nodup_append, h, hc]

theorem addEdge_nodes_mem (g : UnGraphMap) (a b : Point) (w : Int) (q : Point) :
    q ∈ (g.addEdge a b w).nodes ↔ q ∈ g.nodes ∨ q = a ∨ q = b := by
  simp only [UnGraphMap.addEdge]
  split <;>
    simp only [addNode_mem, or_assoc]

theorem addEdge_nodes_nodup (g : UnGraphMap) (a b : Point) (w : Int)
    (h : g.nodes.Nodup) : (g.addEdge a b w).nodes.Nodup := by
  simp only [UnGraphMap.addEdge]
  split <;>
    exact addNode_nodup _ _ (addNode_nodup _ _ h)

theorem edgeMatches_update (a b c d : Point) (w : Int) (e : Point × Point × Int) :
    edgeMatches c d (if edgeMatches a b e then (e.1, e.2.1, w) else e) =
      edgeMatches c d e := by
  split <;> rfl

theorem addEdge_edges (g : UnGraphMap) (a b : Point) (w : Int) :
    (g.addEdge a b w).edges =
      if g.containsEdge a b then
        g.edges.map (fun e => if edgeMatches a b e then (e.1, e.2.1, w) else e)
      else g.edges ++ [(a, b, w)] := by
  simp only [UnGraphMap.addEdge]
  have hedges : ((g.addNode a).addNode b).edges = g.edges := by
    rw [addNode_edges, addNode_edges]
  have hce : ((g.addNode a).addNode b).containsEdge a b = g.containsEdge a b := by
    unfold UnGraphMap.containsEdge
    rw [hedges]
  rw [hce, hedges]
  split <;> rfl

theorem addEdge_containsEdge (g : UnGraphMap) (a b : Point) (w : Int) (c d : Point) :
    (g.addEdge a b w).containsEdge c d = true ↔
      g.containsEdge c d = true ∨ (c = a ∧ d = b) ∨ (c = b ∧ d = a) := by
  have hub := addEdge_edges g a b w
  by_cases hc : g.containsEdge a b = true
  · have hub1 : (g.addEdge a b w).edges =
        g.edges.map (fun e => if edgeMatches a b e then (e.1, e.2.1, w) else e) := by
      rw [hub, if_pos hc]
    constructor
    · intro h
      obtain ⟨e, he, hm⟩ := (containsEdge_iff _ c d).mp h
      rw [hub1, List.mem_map] at he
      obtain ⟨e0, he0, rfl⟩ := he
      left
      rw [containsEdge_iff]
      refine ⟨e0, he0, ?_⟩
      revert hm
      split <;> exact id
    · intro h1
      rw [containsEdge_iff]
      rcases h1 with h1 | h1
      · obtain ⟨e0, he0, hm⟩ := (containsEdge_iff g c d).mp h1
        refine ⟨if edgeMatches a b e0 then (e0.1, e0.2.1, w) else e0,
          by rw [hub1]; exact List.mem_map_of_mem _ he0, ?_⟩
        split <;> exact hm
      · obtain ⟨e0, he0, hm⟩ := (containsEdge_iff g a b).mp hc
        refine ⟨if edgeMatches a b e0 then (e0.1, e0.2.1, w) else e0,
          by rw [hub1]; exact List.mem_map_of_mem _ he0, ?_⟩
        have hm2 : (e0.1 = c ∧ e0.2.1 = d) ∨ (e0.1 = d ∧ e0.2.1 = c) := by
          rcases h1 with ⟨rfl, rfl⟩ | ⟨rfl, rfl⟩
          · exact hm
          · exact hm.symm
        split <;> exact hm2
  · have hub2 : (g.addEdge a b w).edges = g.edges ++ [(a, b, w)] := by
      rw [hub, if_neg hc]
    constructor
    · intro h
      obtain ⟨e, he, hm⟩ := (containsEdge_iff _ c d).mp h
      rw [hub2, List.mem_append] at he
      rcases he with he | he
      · left
        rw [containsEdge_iff]
        exact ⟨e, he, hm⟩
      · rw [List.mem_singleton] at he
        subst he
        right
        rcases hm with ⟨h2, h3⟩ | ⟨h2, h3⟩
        · exact Or.inl ⟨h2.symm, h3.symm⟩
        · exact Or.inr ⟨h3.symm, h2.symm⟩
    · intro h1
      rw [containsEdge_iff]
      rcases h1 with h1 | h1
      · obtain ⟨e, he, hm⟩ := (containsEdge_iff g c d).mp h1
        exact ⟨e, by rw [hub2]; exact List.mem_append_left _ he, hm⟩
      · refine ⟨(a, b, w), by rw [hub2]; exact List.mem_append_right _ (List.mem_singleton_self _), ?_⟩
        rcases h1 with ⟨rfl, rfl⟩ | ⟨rfl, rfl⟩
        · exact Or.inl ⟨rfl, rfl⟩
        · exact Or.inr ⟨rfl, rfl⟩

theorem adjacent_symm (p q : Point) (h : adjacent p q) : adjacent q p := by
  unfold adjacent at h ⊢
  obtain ⟨h1, h2, h3⟩ := h
  exact ⟨by omega, by omega, h3.symm⟩

theorem edgeEquiv_update (a b : Point) (w : Int) (e1 e2 : Point × Point × Int) :
    edgeEquiv (if edgeMatches a b e1 then (e1.1, e1.2.1, w) else e1)
      (if edgeMatches a b e2 then (e2.1, e2.2.1, w) else e2) ↔ edgeEquiv e1 e2 := by
  unfold edgeEquiv
  split <;> split <;> exact Iff.rfl

theorem addNode_wf (g : UnGraphMap) (p : Point) (h : Wf g) : Wf (g.addNode p) := by
  obtain ⟨h1, h2, h3⟩ := h
  exact ⟨addNode_nodup g p h1, by rw [addNode_edges]; exact h2,
    by rw [addNode_edges]; exact h3⟩

theorem addEdge_wf (g : UnGraphMap) (a b : Point) (w : Int) (hab : a ≠ b)
    (h : Wf g) : Wf (g.addEdge a b w) := by
  obtain ⟨h1, h2, h3⟩ := h
  refine ⟨addEdge_nodes_nodup g a b w h1, ?_, ?_⟩
  · intro e he
    rw [addEdge_edges] at he
    revert he
    split
    · intro he
      rw [List.mem_map] at he
      obtain ⟨e0, he0, rfl⟩ := he
      have h4 := h2 e0 he0
      revert h4
      split <;> exact id
    · intro he
      rw [List.mem_append] at he
      rcases he with he | he
      · exact h2 e he
      · rw [List.mem_singleton] at he
        subst he
        exact hab
  · rw [addEdge_edges]
    split
    · refine List.Pairwise.map _ ?_ h3
      intro e1 e2 hne habs
      exact hne ((edgeEquiv_update a b w e1 e2).mp habs)
    · rename_i hc
      rw [List.pairwise_append]
      refine ⟨h3, List.pairwise_singleton _ _, ?_⟩
      intro e1 he1 e2 he2
      rw [List.mem_singleton] at he2
      subst he2
      intro habs
      apply hc
      rw [containsEdge_iff]
      refine ⟨e1, he1, ?_⟩
      unfold edgeEquiv at habs
      exact habs

theorem addEdge_weights (g : UnGraphMap) (a b : Point)
    (h : ∀ e ∈ g.edges, e.2.2 = 1) : ∀ e ∈ (g.addEdge a b 1).edges, e.2.2 = 1 := by
  intro e he
  rw [addEdge_edges] at he
  revert he
  split
  · intro he
    rw [List.mem_map] at he
    obtain ⟨e0, he0, rfl⟩ := he
    split
    · rfl
    · exact h e0 he0
  · intro he
    rw [List.mem_append] at he
    rcases he with he | he
    · exact h e he
    · rw [List.mem_singleton] at he
      subst he
      rfl

/- ### The inner `for n in neighbors(p, ..)` loop -/

theorem foldAdd_containsEdge (p : Point) (ns : List Point) (g : UnGraphMap) (c d : Point) :
    ((ns.foldl (fun g n => g.addEdge p n 1) g).containsEdge c d = true) ↔
      g.containsEdge c d = true ∨ ∃ n ∈ ns, (c = p ∧ d = n) ∨ (c = n ∧ d = p) := by
  induction ns generalizing g with
  | nil => simp
  | cons n ns ih =>
    rw [List.foldl_cons, ih, addEdge_containsEdge]
    simp only [List.mem_cons]
    constructor
    · rintro ((h | h) | ⟨m, hm, h⟩)
      · exact Or.inl h
      · exact Or.inr ⟨n, Or.inl rfl, h⟩
      · exact Or.inr ⟨m, Or.inr hm, h⟩
    · rintro (h | ⟨m, rfl | hm, h⟩)
      · exact Or.inl (Or.inl h)
      · exact Or.inl (Or.inr h)
      · exact Or.inr ⟨m, hm, h⟩

theorem foldAdd_nodes_mem (p : Point) (ns : List Point) (g : UnGraphMap) (q : Point) :
    q ∈ (ns.foldl (fun g n => g.addEdge p n 1) g).nodes ↔
      q ∈ g.nodes ∨ ∃ n ∈ ns, q = p ∨ q = n := by
  induction ns generalizing g with
  | nil => simp
  | cons n ns ih =>
    rw [List.foldl_cons, ih]
    simp only [addEdge_nodes_mem, List.mem_cons]
    constructor
    · rintro ((h | h | h) | ⟨m, hm, h⟩)
      · exact Or.inl h
      · exact Or.inr ⟨n, Or.inl rfl, Or.inl h⟩
      · exact Or.inr ⟨n, Or.inl rfl, Or.inr h⟩
      · exact Or.inr ⟨m, Or.inr hm, h⟩
    · rintro (h | ⟨m, rfl | hm, h⟩)
      · exact Or.inl (Or.inl h)
      · rcases h with h | h
        · exact Or.inl (Or.inr (Or.inl h))
        · exact Or.inl (Or.inr (Or.inr h))
      · exact Or.inr ⟨m, hm, h⟩

theorem foldAdd_wf (p : Point) (ns : List Point) (g : UnGraphMap)
    (hns : ∀ n ∈ ns, n ≠ p) (h : Wf g) :
    Wf (ns.foldl (fun g n => g.addEdge p n 1) g) := by
  induction ns generalizing g with
  | nil => exact h
  | cons n ns ih =>
    rw [List.foldl_cons]
    exact ih _ (fun m hm => hns m (List.mem_cons_of_mem _ hm))
      (addEdge_wf g p n 1 (Ne.symm (hns n (List.mem_cons_self _ _))) h)

theorem foldAdd_weights (p : Point) (ns : List Point) (g : UnGraphMap)
    (h : ∀ e ∈ g.edges, e.2.2 = 1) :
    ∀ e ∈ (ns.foldl (fun g n => g.addEdge p n 1) g).edges, e.2.2 = 1 := by
  induction ns generalizing g with
  | nil => exact h
  | cons n ns ih =>
    rw [List.foldl_cons]
    exact ih _ (addEdge_weights _ _ _ h)

/- ### The builder's loop body -/

theorem mem_nbrs (p q : Point) (x_len y_len : Int) (hp : inBounds p x_len y_len) :
    q ∈ nbrs p x_len y_len ↔ inBounds q x_len y_len ∧ adjacent p q :=
  mem_neighbors_ok p q x_len y_len hp (nbrs p x_len y_len)
    (neighbors_ok_eq p x_len y_len hp)

theorem buildStepOk_wf (x_size y_size : Int) (g : UnGraphMap) (p : Point)
    (hp : inBounds p x_size y_size) (h : Wf g) : Wf (buildStepOk x_size y_size g p) := by
  unfold buildStepOk
  refine foldAdd_wf p _ _ ?_ (addNode_wf g p h)
  intro n hn
  exact Ne.symm ((mem_nbrs p n x_size y_size hp).mp hn).2.2.2

theorem buildStepOk_weights (x_size y_size : Int) (g : UnGraphMap) (p : Point)
    (h : ∀ e ∈ g.edges, e.2.2 = 1) :
    ∀ e ∈ (buildStepOk x_size y_size g p).edges, e.2.2 = 1 := by
  unfold buildStepOk
  refine foldAdd_weights _ _ _ ?_
  rw [addNode_edges]
  exact h

theorem buildStepOk_nodes_mem (x_size y_size : Int) (g : UnGraphMap) (p : Point)
    (hp : inBounds p x_size y_size) (q : Point) :
    q ∈ (buildStepOk x_size y_size g p).nodes ↔
      q ∈ g.nodes ∨ q = p ∨ (inBounds q x_size y_size ∧ adjacent p q) := by
  unfold buildStepOk
  rw [foldAdd_nodes_mem]
  constructor
  · rintro (hq | ⟨n, hn, hqn⟩)
    · rcases (addNode_mem g p q).mp hq with h | h
      · exact Or.inl h
      · exact Or.inr (Or.inl h)
    · rcases hqn with rfl | rfl
      · exact Or.inr (Or.inl rfl)
      · exact Or.inr (Or.inr ((mem_nbrs p q x_size y_size hp).mp hn))
  · rintro (hq | h | ⟨hqb, hadj⟩)
    · exact Or.inl ((addNode_mem g p q).mpr (Or.inl hq))
    · exact Or.inl ((addNode_mem g p q).mpr (Or.inr h))
    · exact Or.inr ⟨q, (mem_nbrs p q x_size y_size hp).mpr ⟨hqb, hadj⟩, Or.inr rfl⟩

theorem buildStepOk_containsEdge (x_size y_size : Int) (g : UnGraphMap) (p : Point)
    (hp : inBounds p x_size y_size) (c d : Point) :
    ((buildStepOk x_size y_size g p).containsEdge c d = true) ↔
      g.containsEdge c d = true ∨
        (inBounds c x_size y_size ∧ inBounds d x_size y_size ∧
          adjacent c d ∧ (c = p ∨ d = p)) := by
  unfold buildStepOk
  rw [foldAdd_containsEdge]
  have h1 : (g.addNode p).containsEdge c d = g.containsEdge c d := by
    unfold UnGraphMap.containsEdge
    rw [addNode_edges]
  rw [h1]
  constructor
  · rintro (h | ⟨n, hn, hcd⟩)
    · exact Or.inl h
    · right
      obtain ⟨hnb, hadj⟩ := (mem_nbrs p n x_size y_size hp).mp hn
      rcases hcd with ⟨rfl, rfl⟩ | ⟨rfl, rfl⟩
      · exact ⟨hp, hnb, hadj, Or.inl rfl⟩
      · exact ⟨hnb, hp, adjacent_symm _ _ hadj, Or.inr rfl⟩
  · rintro (h | ⟨hcb, hdb, hadj, hcp | hdp⟩)
    · exact Or.inl h
    · exact Or.inr ⟨d, (mem_nbrs p d x_size y_size hp).mpr
        ⟨hdb, hcp ▸ hadj⟩, Or.inl ⟨hcp, rfl⟩⟩
    · exact Or.inr ⟨c, (mem_nbrs p c x_size y_size hp).mpr
        ⟨hcb, hdp ▸ adjacent_symm c d hadj⟩, Or.inr ⟨rfl, hdp⟩⟩

/- ### The outer `for p in points` loop and the finished graph -/

theorem buildFold_invariant (x_size y_size : Int) (l : List Point)
    (hl : ∀ p ∈ l, inBounds p x_size y_size) (g : UnGraphMap) (hwf : Wf g)
    (hw : ∀ e ∈ g.edges, e.2.2 = 1) :
    Wf (l.foldl (buildStepOk x_size y_size) g) ∧
    (∀ e ∈ (l.foldl (buildStepOk x_size y_size) g).edges, e.2.2 = 1) ∧
    (∀ q, q ∈ (l.foldl (buildStepOk x_size y_size) g).nodes ↔
      q ∈ g.nodes ∨ ∃ p ∈ l, q = p ∨ (inBounds q x_size y_size ∧ adjacent p q)) ∧
    (∀ c d, ((l.foldl (buildStepOk x_size y_size) g).containsEdge c d = true) ↔
      g.containsEdge c d = true ∨
        (inBounds c x_size y_size ∧ inBounds d x_size y_size ∧ adjacent c d ∧
          ∃ p ∈ l, c = p ∨ d = p)) := by
  induction l generalizing g with
  | nil =>
    refine ⟨hwf, hw, by simp, by simp⟩
  | cons p l ih =>
    have hp : inBounds p x_size y_size := hl p (List.mem_cons_self _ _)
    have hl' : ∀ q ∈ l, inBounds q x_size y_size :=
      fun q hq => hl q (List.mem_cons_of_mem _ hq)
    obtain ⟨iwf, iw, inodes, iedges⟩ := ih hl' (buildStepOk x_size y_size g p)
      (buildStepOk_wf x_size y_size g p hp hwf)
      (buildStepOk_weights x_size y_size g p hw)
    rw [List.foldl_cons]
    refine ⟨iwf, iw, ?_, ?_⟩
    · intro q
      rw [inodes q, buildStepOk_nodes_mem x_size y_size g p hp q]
      simp only [List.mem_cons]
      constructor
      · rintro ((hq | h | h) | ⟨m, hm, h⟩)
        · exact Or.inl hq
        · exact Or.inr ⟨p, Or.inl rfl, Or.inl h⟩
        · exact Or.inr ⟨p, Or.inl rfl, Or.inr h⟩
        · exact Or.inr ⟨m, Or.inr hm, h⟩
      · rintro (hq | ⟨m, rfl | hm, h⟩)
        · exact Or.inl (Or.inl hq)
        · rcases h with h | h
          · exact Or.inl (Or.inr (Or.inl h))
          · exact Or.inl (Or.inr (Or.inr h))
        · exact Or.inr ⟨m, hm, h⟩
    · intro c d
      rw [iedges c d, buildStepOk_containsEdge x_size y_size g p hp c d]
      simp only [List.mem_cons]
      constructor
      · rintro ((h | ⟨hc1, hd1, hadj, h⟩) | ⟨hc1, hd1, hadj, m, hm, h⟩)
        · exact Or.inl h
        · exact Or.inr ⟨hc1, hd1, hadj, p, Or.inl rfl, h⟩
        · exact Or.inr ⟨hc1, hd1, hadj, m, Or.inr hm, h⟩
      · rintro (h | ⟨hc1, hd1, hadj, m, rfl | hm, h⟩)
        · exact Or.inl (Or.inl h)
        · exact Or.inl (Or.inr ⟨hc1, hd1, hadj, h⟩)
        · exact Or.inr ⟨hc1, hd1, hadj, m, hm, h⟩

theorem new_wf : Wf UnGraphMap.new :=
  ⟨List.nodup_nil, fun e he => absurd he (List.not_mem_nil e), List.Pairwise.nil⟩

theorem builtGraph_spec (x_size y_size : Int) :
    Wf (builtGraph x_size y_size) ∧
    (∀ e ∈ (builtGraph x_size y_size).edges, e.2.2 = 1) ∧
    (∀ q, q ∈ (builtGraph x_size y_size).nodes ↔ inBounds q x_size y_size) ∧
    (∀ c d, ((builtGraph x_size y_size).containsEdge c d = true) ↔
      inBounds c x_size y_size ∧ inBounds d x_size y_size ∧ adjacent c d) := by
  obtain ⟨hwf, hw, hnodes, hedges⟩ := buildFold_invariant x_size y_size
    (gridPoints x_size y_size) (fun p hp => (mem_gridPoints p x_size y_size).mp hp)
    UnGraphMap.new new_wf (fun e he => absurd he (List.not_mem_nil e))
  refine ⟨hwf, hw, ?_, ?_⟩
  · intro q
    rw [builtGraph, hnodes q]
    constructor
    · rintro (habs | ⟨p, hp, rfl | ⟨hq, _⟩⟩)
      · exact absurd habs (List.not_mem_nil q)
      · exact (mem_gridPoints q x_size y_size).mp hp
      · exact hq
    · intro hq
      exact Or.inr ⟨q, (mem_gridPoints q x_size y_size).mpr hq, Or.inl rfl⟩
  · intro c d
    rw [builtGraph, hedges c d]
    constructor
    · rintro (habs | ⟨hc1, hd1, hadj, _, _, _⟩)
      · cases habs
      · exact ⟨hc1, hd1, hadj⟩
    · rintro ⟨hc1, hd1, hadj⟩
      exact Or.inr ⟨hc1, hd1, hadj,
        c, (mem_gridPoints c x_size y_size).mpr hc1, Or.inl rfl⟩

/- ### Claim theorems: the built graph's node set and invariants -/

/-- C4: for valid sizes, the graph's node set is exactly
`[0, x_size) × [0, y_size)` and the node count is `x_size * y_size`. -/
theorem C4_node_set (x_size y_size : Int) (hx : 1 ≤ x_size) (hy : 1 ≤ y_size)
    (g : UnGraphMap) (hg : build_empty_tile_graph x_size y_size = Except.ok g) :
    (∀ q, g.containsNode q = true ↔ inBounds q x_size y_size) ∧
    (g.nodeCount : Int) = x_size * y_size := by
  rw [build_eq_ok x_size y_size hx hy] at hg
  injection hg with hg
  subst hg
  obtain ⟨⟨hnodup, _, _⟩, _, hnodes, _⟩ := builtGraph_spec x_size y_size
  constructor
  · intro q
    rw [containsNode_iff]
    exact hnodes q
  · have hperm : (builtGraph x_size y_size).nodes.length =
        (gridPoints x_size y_size).length := by
      refine List.Perm.length_eq
        ((List.perm_ext_iff_of_nodup hnodup (gridPoints_nodup _ _)).mpr ?_)
      intro q
      rw [hnodes q, mem_gridPoints]
    unfold UnGraphMap.nodeCount
    rw [hperm, gridPoints_length, Nat.cast_mul,
      Int.toNat_of_nonneg (by omega : (0 : Int) ≤ x_size),
      Int.toNat_of_nonneg (by omega : (0 : Int) ≤ y_size)]

/-- Witness for C4 on the 1×1 grid. -/
theorem C4_node_set_witness :
    (∀ q, (⟨[⟨0, 0⟩], []⟩ : UnGraphMap).containsNode q = true ↔ inBounds q 1 1) ∧
    ((⟨[⟨0, 0⟩], []⟩ : UnGraphMap).nodeCount : Int) = 1 * 1 :=
  C4_node_set 1 1 (by decide) (by decide) ⟨[⟨0, 0⟩], []⟩ (by rfl)

/-- C8: the built graph is undirected (`contains_edge` is symmetric in its
arguments), every node lies in bounds, every edge weight is exactly 1, no
unordered pair is stored twice (re-inserting the reverse edge was
idempotent), and the 1×2 grid gives nodes `(0,0)`, `(0,1)` with exactly
one edge between them. -/
theorem C8_graph_invariants (x_size y_size : Int) (g : UnGraphMap)
    (hg : build_empty_tile_graph x_size y_size = Except.ok g) :
    (∀ a b, g.containsEdge a b = g.containsEdge b a) ∧
    (∀ q, q ∈ g.nodes → inBounds q x_size y_size) ∧
    (∀ e ∈ g.edges, e.2.2 = 1) ∧
    g.edges.Pairwise (fun e1 e2 => ¬ edgeEquiv e1 e2) ∧
    build_empty_tile_graph 1 2 =
      Except.ok ⟨[⟨0, 0⟩, ⟨0, 1⟩], [(⟨0, 0⟩, ⟨0, 1⟩, 1)]⟩ ∧
    (⟨[⟨0, 0⟩, ⟨0, 1⟩], [(⟨0, 0⟩, ⟨0, 1⟩, 1)]⟩ : UnGraphMap).nodeCount = 2 ∧
    (⟨[⟨0, 0⟩, ⟨0, 1⟩], [(⟨0, 0⟩, ⟨0, 1⟩, 1)]⟩ : UnGraphMap).edgeCount = 1 ∧
    (⟨[⟨0, 0⟩, ⟨0, 1⟩], [(⟨0, 0⟩, ⟨0, 1⟩, 1)]⟩ : UnGraphMap).containsEdge
      ⟨0, 1⟩ ⟨0, 0⟩ = true := by
  have hxy : ¬(x_size < 1 ∨ y_size < 1) := by
    intro hlt
    unfold build_empty_tile_graph at hg
    rw [if_pos hlt] at hg
    cases hg
  rw [build_eq_ok x_size y_size (by omega) (by omega)] at hg
  injection hg with hg
  subst hg
  obtain ⟨⟨_, _, hpair⟩, hw, hnodes, _⟩ := builtGraph_spec x_size y_size
  refine ⟨fun a b => containsEdge_comm _ a b, ?_, hw, hpair, by rfl, by rfl, by rfl, by rfl⟩
  intro q hq
  exact (hnodes q).mp hq

/- ### Degrees in the built graph -/

theorem edgeEquiv_symm (e1 e2 : Point × Point × Int) (h : edgeEquiv e1 e2) :
    edgeEquiv e2 e1 := by
  unfold edgeEquiv at h ⊢
  rcases h with ⟨h1, h2⟩ | ⟨h1, h2⟩
  · exact Or.inl ⟨h1.symm, h2.symm⟩
  · exact Or.inr ⟨h2.symm, h1.symm⟩

theorem nbrs_nodup (p : Point) (x_len y_len : Int) (hp : inBounds p x_len y_len) :
    (nbrs p x_len y_len).Nodup :=
  neighbors_nodup p x_len y_len hp _ (neighbors_ok_eq p x_len y_len hp)

/-- In a graph with no self-loops and no duplicated unordered pair, the
number of edge entries incident to `p` equals the length of any duplicate-free
list `ns` holding exactly the points with an edge to `p`. -/
theorem degree_eq_length (g : UnGraphMap)
    (hself : ∀ e ∈ g.edges, e.1 ≠ e.2.1)
    (hpair : g.edges.Pairwise (fun e1 e2 => ¬ edgeEquiv e1 e2))
    (p : Point) (ns : List Point) (hnodup : ns.Nodup)
    (hmem : ∀ q, q ∈ ns ↔ g.containsEdge p q = true) :
    g.degree p = ns.length := by
  unfold UnGraphMap.degree
  set incid := g.edges.filter (fun e => e.1 == p || e.2.1 == p) with hincid
  have hsub : ∀ e ∈ incid, e ∈ g.edges ∧ (e.1 = p ∨ e.2.1 = p) := by
    intro e he
    rw [hincid, List.mem_filter] at he
    obtain ⟨h1, h2⟩ := he
    rw [Bool.or_eq_true, beq_iff_eq, beq_iff_eq] at h2
    exact ⟨h1, h2⟩
  set other : Point × Point × Int → Point := fun e => if e.1 = p then e.2.1 else e.1
    with hother
  have hpair2 : incid.Pairwise (fun e1 e2 => ¬ edgeEquiv e1 e2) :=
    List.Pairwise.filter _ hpair
  have hincidnodup : incid.Nodup := by
    refine hpair2.imp ?_
    intro a b h habs
    subst habs
    exact h (Or.inl ⟨rfl, rfl⟩)
  have hshape : ∀ e ∈ incid, (e.1 = p ∧ e.2.1 = other e) ∨ (e.1 = other e ∧ e.2.1 = p) := by
    intro e he
    obtain ⟨_, hi⟩ := hsub e he
    rw [hother]
    dsimp only
    split
    · rename_i h
      exact Or.inl ⟨h, rfl⟩
    · rename_i h
      rcases hi with hi | hi
      · exact absurd hi h
      · exact Or.inr ⟨rfl, hi⟩
  have hinj : ∀ x ∈ incid, ∀ y ∈ incid, other x = other y → x = y := by
    intro x hx y hy hf
    by_contra hne
    have hnequiv : ¬ edgeEquiv x y := by
      refine List.Pairwise.forall ?_ hpair2 hx hy hne
      intro a b h habs
      exact h (edgeEquiv_symm b a habs)
    apply hnequiv
    obtain h1 | h1 := hshape x hx <;> obtain h2 | h2 := hshape y hy
    · exact Or.inl ⟨h1.1.trans h2.1.symm, (h1.2.trans hf).trans h2.2.symm⟩
    · exact Or.inr ⟨h1.1.trans h2.2.symm, (h1.2.trans hf).trans h2.1.symm⟩
    · exact Or.inr ⟨(h1.1.trans hf).trans h2.2.symm, h1.2.trans h2.1.symm⟩
    · exact Or.inl ⟨(h1.1.trans hf).trans h2.1.symm, h1.2.trans h2.2.symm⟩
  have hnodup2 : (incid.map other).Nodup := List.Nodup.map_on hinj hincidnodup
  have hmem2 : ∀ q, q ∈ incid.map other ↔ g.containsEdge p q = true := by
    intro q
    rw [List.mem_map]
    constructor
    · rintro ⟨e, he, rfl⟩
      obtain ⟨hge, _⟩ := hsub e he
      rw [containsEdge_iff]
      refine ⟨e, hge, ?_⟩
      obtain h1 | h1 := hshape e he
      · exact Or.inl h1
      · exact Or.inr h1
    · intro hq
      obtain ⟨e, hge, hm⟩ := (containsEdge_iff g p q).mp hq
      have hi : e ∈ incid := by
        rw [hincid, List.mem_filter]
        refine ⟨hge, ?_⟩
        rw [Bool.or_eq_true, beq_iff_eq, beq_iff_eq]
        rcases hm with ⟨h1, _⟩ | ⟨_, h2⟩
        · exact Or.inl h1
        · exact Or.inr h2
      refine ⟨e, hi, ?_⟩
      rw [hother]
      dsimp only
      rcases hm with ⟨h1, h2⟩ | ⟨h1, h2⟩
      · rw [if_pos h1]
        exact h2
      · by_cases he1 : e.1 = p
        · exact absurd (he1.trans h2.symm) (hself e hge)
        · rw [if_neg he1]
          exact h1
  calc incid.length = (incid.map other).length := (List.length_map _ _).symm
    _ = ns.length := List.Perm.length_eq
      ((List.perm_ext_iff_of_nodup hnodup2 hnodup).mpr
        (fun q => by rw [hmem2 q, hmem q]))

theorem builtGraph_degree (x_size y_size : Int) (p : Point)
    (hp : inBounds p x_size y_size) :
    (builtGraph x_size y_size).degree p = (nbrs p x_size y_size).length := by
  obtain ⟨⟨_, hself, hpair⟩, _, _, hedges⟩ := builtGraph_spec x_size y_size
  refine degree_eq_length _ hself hpair p _ (nbrs_nodup p x_size y_size hp) ?_
  intro q
  rw [mem_nbrs p q _ _ hp, hedges p q]
  constructor
  · rintro ⟨h1, h2⟩
    exact ⟨hp, h1, h2⟩
  · rintro ⟨_, h1, h2⟩
    exact ⟨h1, h2⟩

theorem nbrs_length_corner (p : Point) (x_len y_len : Int) (hx : 2 ≤ x_len)
    (hy : 2 ≤ y_len) (hp : inBounds p x_len y_len) (hc : isCorner p x_len y_len) :
    (nbrs p x_len y_len).length = 3 := by
  unfold nbrs offsetPoints
  rw [← List.countP_eq_length_filter]
  simp only [List.countP_cons, List.countP_nil, decide_eq_true_eq, inBounds]
  obtain ⟨px, py⟩ := p
  unfold inBounds isCorner at *
  dsimp only at *
  split_ifs <;> omega

theorem nbrs_length_boundary (p : Point) (x_len y_len : Int) (hx : 2 ≤ x_len)
    (hy : 2 ≤ y_len) (hp : inBounds p x_len y_len)
    (hb : isBoundary p x_len y_len) (hnc : ¬ isCorner p x_len y_len) :
    (nbrs p x_len y_len).length = 5 := by
  unfold nbrs offsetPoints
  rw [← List.countP_eq_length_filter]
  simp only [List.countP_cons, List.countP_nil, decide_eq_true_eq, inBounds]
  obtain ⟨px, py⟩ := p
  unfold inBounds isBoundary isCorner at *
  dsimp only at *
  split_ifs <;> omega

theorem nbrs_length_interior (p : Point) (x_len y_len : Int)
    (hp : inBounds p x_len y_len) (hni : ¬ isBoundary p x_len y_len) :
    (nbrs p x_len y_len).length = 8 := by
  unfold nbrs offsetPoints
  rw [← List.countP_eq_length_filter]
  simp only [List.countP_cons, List.countP_nil, decide_eq_true_eq, inBounds]
  obtain ⟨px, py⟩ := p
  unfold inBounds isBoundary at *
  dsimp only at *
  split_ifs <;> omega

/-- Witness for C8 on the 1×2 grid. -/
theorem C8_graph_invariants_witness :
    (∀ a b, (⟨[⟨0, 0⟩, ⟨0, 1⟩], [(⟨0, 0⟩, ⟨0, 1⟩, 1)]⟩ : UnGraphMap).containsEdge a b =
      (⟨[⟨0, 0⟩, ⟨0, 1⟩], [(⟨0, 0⟩, ⟨0, 1⟩, 1)]⟩ : UnGraphMap).containsEdge b a) ∧
    (∀ q, q ∈ (⟨[⟨0, 0⟩, ⟨0, 1⟩], [(⟨0, 0⟩, ⟨0, 1⟩, 1)]⟩ : UnGraphMap).nodes →
      inBounds q 1 2) ∧
    (∀ e ∈ (⟨[⟨0, 0⟩, ⟨0, 1⟩], [(⟨0, 0⟩, ⟨0, 1⟩, 1)]⟩ : UnGraphMap).edges, e.2.2 = 1) ∧
    (⟨[⟨0, 0⟩, ⟨0, 1⟩], [(⟨0, 0⟩, ⟨0, 1⟩, 1)]⟩ : UnGraphMap).edges.Pairwise
      (fun e1 e2 => ¬ edgeEquiv e1 e2) ∧
    build_empty_tile_graph 1 2 =
      Except.ok ⟨[⟨0, 0⟩, ⟨0, 1⟩], [(⟨0, 0⟩, ⟨0, 1⟩, 1)]⟩ ∧
    (⟨[⟨0, 0⟩, ⟨0, 1⟩], [(⟨0, 0⟩, ⟨0, 1⟩, 1)]⟩ : UnGraphMap).nodeCount = 2 ∧
    (⟨[⟨0, 0⟩, ⟨0, 1⟩], [(⟨0, 0⟩, ⟨0, 1⟩, 1)]⟩ : UnGraphMap).edgeCount = 1 ∧
    (⟨[⟨0, 0⟩, ⟨0, 1⟩], [(⟨0, 0⟩, ⟨0, 1⟩, 1)]⟩ : UnGraphMap).containsEdge
      ⟨0, 1⟩ ⟨0, 0⟩ = true :=
  C8_graph_invariants 1 2 ⟨[⟨0, 0⟩, ⟨0, 1⟩], [(⟨0, 0⟩, ⟨0, 1⟩, 1)]⟩ (by rfl)

set_option maxRecDepth 8192 in
/-- C3 counterexample: in the graph built for the 3×3 grid, the corner
cell `(0,0)` has degree 3 — `neighbors` returns 3 points for it — not the
4 the claim states for corner cells. -/
theorem C3_corner_degree_counterexample :
    build_empty_tile_graph 3 3 = Except.ok (builtGraph 3 3) ∧
    isCorner ⟨0, 0⟩ 3 3 ∧
    (builtGraph 3 3).containsNode ⟨0, 0⟩ = true ∧
    neighbors ⟨0, 0⟩ 3 3 = Except.ok [⟨0, 1⟩, ⟨1, 0⟩, ⟨1, 1⟩] ∧
    (builtGraph 3 3).degree ⟨0, 0⟩ = 3 ∧
    ¬ (builtGraph 3 3).degree ⟨0, 0⟩ = 4 :=
  ⟨build_eq_ok 3 3 (by omega) (by omega), by decide, by rfl, by rfl, by rfl, by decide⟩

/-- C3 (amended: a corner cell has 3 valid neighbors, not 4): in any graph
built for valid sizes, every node's edge count equals the number of points
`neighbors` returns for that cell; for grids at least 2×2 that number is 3
for corner cells, 5 for non-corner boundary cells and 8 for interior
cells (1-wide and 1-tall grids have no cells of these kinds with these
counts and are covered by the first part alone). -/
theorem C3_degree_eq_neighbor_count (x_size y_size : Int) (g : UnGraphMap)
    (hg : build_empty_tile_graph x_size y_size = Except.ok g)
    (p : Point) (hp : g.containsNode p = true) :
    (∃ ns, neighbors p x_size y_size = Except.ok ns ∧ g.degree p = ns.length) ∧
    (2 ≤ x_size → 2 ≤ y_size →
      (isCorner p x_size y_size → g.degree p = 3) ∧
      (isBoundary p x_size y_size ∧ ¬ isCorner p x_size y_size → g.degree p = 5) ∧
      (¬ isBoundary p x_size y_size → g.degree p = 8)) := by
  have hxy : ¬(x_size < 1 ∨ y_size < 1) := by
    intro hlt
    unfold build_empty_tile_graph at hg
    rw [if_pos hlt] at hg
    cases hg
  rw [build_eq_ok x_size y_size (by omega) (by omega)] at hg
  injection hg with hg
  subst hg
  obtain ⟨_, _, hnodes, _⟩ := builtGraph_spec x_size y_size
  have hpb : inBounds p x_size y_size := (hnodes p).mp ((containsNode_iff _ p).mp hp)
  have hdeg := builtGraph_degree x_size y_size p hpb
  refine ⟨⟨nbrs p x_size y_size, neighbors_ok_eq p x_size y_size hpb, hdeg⟩, ?_⟩
  intro hx hy
  refine ⟨?_, ?_, ?_⟩
  · intro hc
    rw [hdeg]
    exact nbrs_length_corner p x_size y_size hx hy hpb hc
  · rintro ⟨hb, hnc⟩
    rw [hdeg]
    exact nbrs_length_boundary p x_size y_size hx hy hpb hb hnc
  · intro hni
    rw [hdeg]
    exact nbrs_length_interior p x_size y_size hpb hni

set_option maxRecDepth 8192 in
/-- Witness for C3 (amended) on the 3×3 grid at the interior cell (1,1). -/
theorem C3_degree_eq_neighbor_count_witness :
    (∃ ns, neighbors ⟨1, 1⟩ 3 3 = Except.ok ns ∧
      (builtGraph 3 3).degree ⟨1, 1⟩ = ns.length) ∧
    (2 ≤ (3 : Int) → 2 ≤ (3 : Int) →
      (isCorner ⟨1, 1⟩ 3 3 → (builtGraph 3 3).degree ⟨1, 1⟩ = 3) ∧
      (isBoundary ⟨1, 1⟩ 3 3 ∧ ¬ isCorner ⟨1, 1⟩ 3 3 →
        (builtGraph 3 3).degree ⟨1, 1⟩ = 5) ∧
      (¬ isBoundary ⟨1, 1⟩ 3 3 → (builtGraph 3 3).degree ⟨1, 1⟩ = 8)) :=
  C3_degree_eq_neighbor_count 3 3 (builtGraph 3 3) (by rfl) ⟨1, 1⟩ (by rfl)

end PathFinding
